import Mathlib

/-!
Verification of the chunked streaming pipeline of `src/index.js`
(repository `stream-learning`).

The script pipes a UTF-8 text file through a `Transform` stream that
uppercases each chunk, while maintaining four top-level mutable variables
(`totalSize`, `processedSize`, `processedLines`, `lastLoggedProgress`) and
logging a progress report when a 10-point threshold is crossed.

Shallow embedding choices:
* A decoded text is a `List Char`.  `fs.createReadStream(..., {encoding:'utf8'})`
  delivers decoded strings, so a chunk is also a `List Char`; Node's string
  decoder never splits a code point across chunks, so a chunking of the input
  is any list of character lists whose concatenation is the input text.
* A JS string's `.length` counts UTF-16 code units (`jsLen`); the file size
  reported by `fs.stat` counts UTF-8 bytes (`utf8Bytes`).  These differ on
  non-ASCII input, which several claims turn on.
* The float expression `progress = processedSize / totalSize * 100` and the
  comparison `progress >= lastLoggedProgress + 10` are modelled in exact
  rational arithmetic over `Nat`: for `0 < totalSize` the comparison is
  `(lastLoggedProgress + 10) * totalSize ≤ 100 * processedSize`, and
  `Math.floor(progress)` is `100 * processedSize / totalSize` (Nat division).
-/

namespace StreamLearning

/-- Contribution of one character to a JS string's `.length`:
UTF-16 code units (code points above `U+FFFF` are a surrogate pair). -/
def jsLen (c : Char) : Nat :=
  if c.toNat < 0x10000 then 1 else 2

/-- Contribution of one character to the UTF-8 byte size of the input file,
which is what `fs.stat`'s `stats.size` reports for the text. -/
def utf8Bytes (c : Char) : Nat :=
  if c.toNat ≤ 0x7F then 1
  else if c.toNat ≤ 0x7FF then 2
  else if c.toNat ≤ 0xFFFF then 3
  else 4

/-- `.length` of the JS string holding the decoded text `s`. -/
def strJsLen : List Char → Nat
  | [] => 0
  | c :: s => jsLen c + strJsLen s

/-- Byte size on disk of the UTF-8 encoding of the text `s`. -/
def strUtf8Size : List Char → Nat
  | [] => 0
  | c :: s => utf8Bytes c + strUtf8Size s

/-- `chunk.toString().split('\n').length - 1`: splitting on `'\n'` yields one
more piece than there are separators, so this is the number of `'\n'`
characters in the chunk. -/
def countNewlines : List Char → Nat
  | [] => 0
  | c :: s => (if c = '\n' then 1 else 0) + countNewlines s

/-- Per-code-point map underlying `String.prototype.toUpperCase`.
JavaScript's default (locale-independent) uppercase conversion applies the
Unicode uppercase mapping code point by code point, with no contextual rules,
so `toUpperCase` is the concatenation of a per-character map (which may emit
more than one character, e.g. `'ß' ↦ "SS"`).  The map is modelled faithfully
on the ASCII range (`'a'..'z'` to `'A'..'Z'`); code points outside the
modelled range are left fixed. -/
def upChar (c : Char) : List Char :=
  if 'a' ≤ c ∧ c ≤ 'z' then [Char.ofNat (c.toNat - 32)] else [c]

/-- Model of `chunk.toString().toUpperCase()`. -/
def jsToUpper : List Char → List Char
  | [] => []
  | c :: s => upChar c ++ jsToUpper s

/-- Concatenation of a sequence of chunks back into one text. -/
def concatChunks : List (List Char) → List Char
  | [] => []
  | c :: cs => c ++ concatChunks cs

/-- The top-level mutable variables of the script that the transform callback
updates (`totalSize`, `processedSize`, `processedLines`, `lastLoggedProgress`;
`startTime` is wall-clock and not modelled). -/
structure RunState where
  totalSize : Nat
  processedSize : Nat
  processedLines : Nat
  lastLoggedProgress : Nat
deriving DecidableEq

/-- The state the script starts streaming in: `fs.stat` has set `totalSize`,
the other counters are still at their initial value `0`. -/
def initState (totalSize : Nat) : RunState :=
  { totalSize := totalSize, processedSize := 0, processedLines := 0,
    lastLoggedProgress := 0 }

/-- Result of one invocation of the `transform` callback: the updated
variables, the chunk pushed downstream, and the progress report logged by
`console.log` (`none` when the threshold test fails; the report carries
`Math.floor(progress)` and `processedLines`). -/
structure StepResult where
  state : RunState
  output : List Char
  report : Option (Nat × Nat)
deriving DecidableEq

/-- One invocation of `transform(chunk, encoding, callback)`:
`processedSize += chunk.length`, `processedLines += chunk.split('\n').length - 1`,
the chunk is uppercased and pushed, then
`if (progress >= lastLoggedProgress + 10)` a report with `Math.floor(progress)`
and the current `processedLines` is logged and
`lastLoggedProgress = Math.floor(progress)`.  The float comparison and floor
are rendered in exact arithmetic as explained in the file header. -/
def transformChunk (st : RunState) (chunk : List Char) : StepResult :=
  { state :=
      { totalSize := st.totalSize
      , processedSize := st.processedSize + strJsLen chunk
      , processedLines := st.processedLines + countNewlines chunk
      , lastLoggedProgress :=
          if (st.lastLoggedProgress + 10) * st.totalSize
              ≤ 100 * (st.processedSize + strJsLen chunk)
          then 100 * (st.processedSize + strJsLen chunk) / st.totalSize
          else st.lastLoggedProgress }
  , output := jsToUpper chunk
  , report :=
      if (st.lastLoggedProgress + 10) * st.totalSize
          ≤ 100 * (st.processedSize + strJsLen chunk)
      then some (100 * (st.processedSize + strJsLen chunk) / st.totalSize,
                 st.processedLines + countNewlines chunk)
      else none }

/-- Accumulated observable outcome of streaming a list of chunks: the final
variable values, the concatenation of everything pushed to the writable
stream, and the progress reports in the order they were logged. -/
structure RunResult where
  finalState : RunState
  output : List Char
  reports : List (Nat × Nat)
deriving DecidableEq

/-- Streaming a sequence of chunks through the transform stage in order.
Backpressure makes the pipeline strictly sequential (one chunk in flight), so
the run is a left-to-right fold of `transformChunk`. -/
def runChunks (st : RunState) : List (List Char) → RunResult
  | [] => { finalState := st, output := [], reports := [] }
  | c :: cs =>
    let step := transformChunk st c
    let rest := runChunks step.state cs
    { finalState := rest.finalState
    , output := step.output ++ rest.output
    , reports := step.report.toList ++ rest.reports }

/-- Observable outcome of one execution of the whole script. -/
structure ScriptRun where
  /-- `fs.createWriteStream(outputFile)` ran (it creates/truncates the file). -/
  outputFileCreated : Bool
  /-- number of chunks pulled from the readable stream -/
  chunksRead : Nat
  /-- data written to `large-output.txt` -/
  written : List Char
  /-- the `fs.stat` error branch ran (`console.error` then `return`) -/
  statErrorLogged : Bool
  /-- number of times the `'finish'` handler ran -/
  finishCalls : Nat
  /-- number of times the `'error'` handler ran -/
  errorCalls : Nat
  /-- progress reports logged, in order -/
  reports : List (Nat × Nat)
  /-- `processedLines` printed by the `'finish'` handler, when it ran -/
  summaryLines : Option Nat
  finalState : RunState
deriving DecidableEq

/-- One execution of `src/index.js`.  `statSize = none` models a failing
`fs.stat` (e.g. the input file does not exist); `statSize = some n` models a
successful probe reporting `n` bytes.  The write stream for the output file
is created at module load, before `fs.stat` runs, so `outputFileCreated` is
`true` on both branches.  On the error branch the callback logs and returns:
the pipe is never set up, no chunk is read, nothing is written, and neither
the `'finish'` nor the `'error'` handler is ever attached or called.  On the
success branch the chunks delivered by the readable stream flow through the
transform into the writable stream and the `'finish'` handler prints the
final `processedLines` (this models an error-free streaming phase). -/
def runScript (statSize : Option Nat) (chunks : List (List Char)) : ScriptRun :=
  match statSize with
  | none =>
    { outputFileCreated := true, chunksRead := 0, written := []
    , statErrorLogged := true, finishCalls := 0, errorCalls := 0
    , reports := [], summaryLines := none, finalState := initState 0 }
  | some size =>
    let r := runChunks (initState size) chunks
    { outputFileCreated := true, chunksRead := chunks.length, written := r.output
    , statErrorLogged := false, finishCalls := 1, errorCalls := 0
    , reports := r.reports, summaryLines := some r.finalState.processedLines
    , finalState := r.finalState }

/-! ### Basic lemmas about the length and counting functions -/

theorem jsLen_pos (c : Char) : 0 < jsLen c := by
  unfold jsLen; split <;> omega

theorem utf8Bytes_pos (c : Char) : 0 < utf8Bytes c := by
  unfold utf8Bytes
  repeat' split
  all_goals omega

theorem jsLen_le_utf8Bytes (c : Char) : jsLen c ≤ utf8Bytes c := by
  unfold jsLen utf8Bytes
  repeat' split
  all_goals omega

theorem strJsLen_append (a b : List Char) :
    strJsLen (a ++ b) = strJsLen a + strJsLen b := by
  induction a with
  | nil => simp [strJsLen]
  | cons c s ih => simp [strJsLen, ih, Nat.add_assoc]

theorem strUtf8Size_append (a b : List Char) :
    strUtf8Size (a ++ b) = strUtf8Size a + strUtf8Size b := by
  induction a with
  | nil => simp [strUtf8Size]
  | cons c s ih => simp [strUtf8Size, ih, Nat.add_assoc]

theorem countNewlines_append (a b : List Char) :
    countNewlines (a ++ b) = countNewlines a + countNewlines b := by
  induction a with
  | nil => simp [countNewlines]
  | cons c s ih => simp [countNewlines, ih, Nat.add_assoc]

theorem jsToUpper_append (a b : List Char) :
    jsToUpper (a ++ b) = jsToUpper a ++ jsToUpper b := by
  induction a with
  | nil => simp [jsToUpper]
  | cons c s ih => simp [jsToUpper, ih]

theorem strJsLen_le_strUtf8Size (s : List Char) :
    strJsLen s ≤ strUtf8Size s := by
  induction s with
  | nil => exact Nat.le_refl 0
  | cons c s ih => exact Nat.add_le_add (jsLen_le_utf8Bytes c) ih

theorem strUtf8Size_pos (s : List Char) (h : s ≠ []) : 0 < strUtf8Size s := by
  cases s with
  | nil => exact absurd rfl h
  | cons c s => exact Nat.lt_of_lt_of_le (utf8Bytes_pos c) (Nat.le_add_right _ _)

theorem jsLen_of_ascii (c : Char) (h : c.toNat < 128) : jsLen c = 1 := by
  unfold jsLen; rw [if_pos (by omega)]

theorem utf8Bytes_of_ascii (c : Char) (h : c.toNat < 128) : utf8Bytes c = 1 := by
  unfold utf8Bytes; rw [if_pos (by omega)]

theorem strJsLen_eq_strUtf8Size_of_ascii (s : List Char)
    (h : ∀ c ∈ s, c.toNat < 128) : strJsLen s = strUtf8Size s := by
  induction s with
  | nil => rfl
  | cons c s ih =>
    have hc : c.toNat < 128 := h c (List.mem_cons_self c s)
    have hs : ∀ x ∈ s, x.toNat < 128 := fun x hx => h x (List.mem_cons_of_mem c hx)
    simp only [strJsLen, strUtf8Size, jsLen_of_ascii c hc, utf8Bytes_of_ascii c hc, ih hs]

theorem concatChunks_append (a b : List (List Char)) :
    concatChunks (a ++ b) = concatChunks a ++ concatChunks b := by
  induction a with
  | nil => simp [concatChunks]
  | cons c cs ih => simp [concatChunks, ih]

/-! ### Characterisation of a streaming run -/

theorem transformChunk_totalSize (st : RunState) (c : List Char) :
    (transformChunk st c).state.totalSize = st.totalSize := rfl

theorem transformChunk_processedSize (st : RunState) (c : List Char) :
    (transformChunk st c).state.processedSize = st.processedSize + strJsLen c := rfl

theorem transformChunk_processedLines (st : RunState) (c : List Char) :
    (transformChunk st c).state.processedLines
      = st.processedLines + countNewlines c := rfl

theorem transformChunk_output (st : RunState) (c : List Char) :
    (transformChunk st c).output = jsToUpper c := rfl

theorem runChunks_totalSize (chunks : List (List Char)) (st : RunState) :
    (runChunks st chunks).finalState.totalSize = st.totalSize := by
  induction chunks generalizing st with
  | nil => rfl
  | cons c cs ih => exact (ih (transformChunk st c).state).trans rfl

theorem runChunks_processedSize (chunks : List (List Char)) (st : RunState) :
    (runChunks st chunks).finalState.processedSize
      = st.processedSize + strJsLen (concatChunks chunks) := by
  induction chunks generalizing st with
  | nil => rfl
  | cons c cs ih =>
    show (runChunks (transformChunk st c).state cs).finalState.processedSize = _
    rw [ih, transformChunk_processedSize]
    simp [concatChunks, strJsLen_append, Nat.add_assoc]

theorem runChunks_processedLines (chunks : List (List Char)) (st : RunState) :
    (runChunks st chunks).finalState.processedLines
      = st.processedLines + countNewlines (concatChunks chunks) := by
  induction chunks generalizing st with
  | nil => rfl
  | cons c cs ih =>
    show (runChunks (transformChunk st c).state cs).finalState.processedLines = _
    rw [ih, transformChunk_processedLines]
    simp [concatChunks, countNewlines_append, Nat.add_assoc]

theorem runChunks_output (chunks : List (List Char)) (st : RunState) :
    (runChunks st chunks).output = jsToUpper (concatChunks chunks) := by
  induction chunks generalizing st with
  | nil => rfl
  | cons c cs ih =>
    show jsToUpper c ++ (runChunks (transformChunk st c).state cs).output = _
    rw [ih]
    simp [concatChunks, jsToUpper_append]

theorem transformChunk_last (st : RunState) (c : List Char) :
    (transformChunk st c).state.lastLoggedProgress
      = if (st.lastLoggedProgress + 10) * st.totalSize
            ≤ 100 * (st.processedSize + strJsLen c)
        then 100 * (st.processedSize + strJsLen c) / st.totalSize
        else st.lastLoggedProgress := rfl

theorem transformChunk_report (st : RunState) (c : List Char) :
    (transformChunk st c).report
      = if (st.lastLoggedProgress + 10) * st.totalSize
            ≤ 100 * (st.processedSize + strJsLen c)
        then some (100 * (st.processedSize + strJsLen c) / st.totalSize,
                   st.processedLines + countNewlines c)
        else none := rfl

theorem runChunks_finalState_cons (st : RunState) (c : List Char)
    (cs : List (List Char)) :
    (runChunks st (c :: cs)).finalState
      = (runChunks (transformChunk st c).state cs).finalState := rfl

theorem runChunks_reports_cons (st : RunState) (c : List Char)
    (cs : List (List Char)) :
    (runChunks st (c :: cs)).reports
      = (transformChunk st c).report.toList
          ++ (runChunks (transformChunk st c).state cs).reports := rfl

/-! ### The progress-report sequence -/

/-- Each logged report was produced while the threshold test held, and every
later report starts from the floor value just stored: the logged percentages
form a chain in which each value exceeds the previous one by at least 10. -/
theorem runChunks_reports_chain (chunks : List (List Char)) :
    ∀ st : RunState, 0 < st.totalSize →
      List.Chain (fun a b => a + 10 ≤ b) st.lastLoggedProgress
        ((runChunks st chunks).reports.map Prod.fst) := by
  induction chunks with
  | nil => exact fun st _ => List.Chain.nil
  | cons c cs ih =>
    intro st ht
    have ht' : 0 < (transformChunk st c).state.totalSize := ht
    have hchain := ih (transformChunk st c).state ht'
    rw [runChunks_reports_cons, transformChunk_report]
    by_cases hfire : (st.lastLoggedProgress + 10) * st.totalSize
        ≤ 100 * (st.processedSize + strJsLen c)
    · rw [if_pos hfire]
      rw [transformChunk_last, if_pos hfire] at hchain
      exact List.Chain.cons ((Nat.le_div_iff_mul_le ht).mpr hfire) hchain
    · rw [if_neg hfire]
      rw [transformChunk_last, if_neg hfire] at hchain
      exact hchain

/-- When the chunks do not overrun the probed size, every logged percentage
is at most 100. -/
theorem runChunks_reports_le (chunks : List (List Char)) :
    ∀ st : RunState,
      st.processedSize + strJsLen (concatChunks chunks) ≤ st.totalSize →
      ∀ p ∈ (runChunks st chunks).reports, p.1 ≤ 100 := by
  induction chunks with
  | nil =>
    intro st _ p hp
    cases hp
  | cons c cs ih =>
    intro st hle p hp
    have hsplit : strJsLen (concatChunks (c :: cs))
        = strJsLen c + strJsLen (concatChunks cs) := by
      simp [concatChunks, strJsLen_append]
    rw [runChunks_reports_cons] at hp
    rcases List.mem_append.mp hp with hmem | hmem
    · rw [transformChunk_report] at hmem
      by_cases hfire : (st.lastLoggedProgress + 10) * st.totalSize
          ≤ 100 * (st.processedSize + strJsLen c)
      · rw [if_pos hfire] at hmem
        have hp' : p = (100 * (st.processedSize + strJsLen c) / st.totalSize,
            st.processedLines + countNewlines c) := by
          simpa [Option.toList] using hmem
        subst hp'
        have hs : st.processedSize + strJsLen c ≤ st.totalSize := by omega
        exact Nat.div_le_of_le_mul
          ((Nat.mul_le_mul_left 100 hs).trans_eq (Nat.mul_comm 100 st.totalSize))
      · rw [if_neg hfire] at hmem
        cases hmem
    · have hsub : (transformChunk st c).state.processedSize
          + strJsLen (concatChunks cs) ≤ (transformChunk st c).state.totalSize := by
        rw [transformChunk_processedSize, transformChunk_totalSize]
        omega
      exact ih (transformChunk st c).state hsub p hmem

/-- A chain with gaps of 10 bounds every member from below. -/
theorem chain_forall_ge {a : Nat} {l : List Nat}
    (h : List.Chain (fun x y => x + 10 ≤ y) a l) : ∀ p ∈ l, a + 10 ≤ p := by
  induction l generalizing a with
  | nil => intro p hp; cases hp
  | cons b l ih =>
    cases h with
    | cons hab hbl =>
      intro p hp
      rcases List.mem_cons.mp hp with rfl | hp
      · exact hab
      · have := ih hbl p hp
        omega

/-- A chain with gaps of 10 is pairwise: later values exceed earlier ones by
at least 10 (in particular the list has no duplicates). -/
theorem chain_pairwise_ge {a : Nat} {l : List Nat}
    (h : List.Chain (fun x y => x + 10 ≤ y) a l) :
    l.Pairwise (fun x y => x + 10 ≤ y) := by
  induction l generalizing a with
  | nil => exact List.Pairwise.nil
  | cons b l ih =>
    cases h with
    | cons hab hbl => exact List.Pairwise.cons (chain_forall_ge hbl) (ih hbl)

/-- `lastLoggedProgress ≤ ⌊100·processedSize/totalSize⌋` is preserved by the
whole run: the update writes exactly the current floor, and between updates
the floor only grows. -/
theorem runChunks_last_le_floor (chunks : List (List Char)) :
    ∀ st : RunState,
      st.lastLoggedProgress ≤ 100 * st.processedSize / st.totalSize →
      (runChunks st chunks).finalState.lastLoggedProgress
        ≤ 100 * (runChunks st chunks).finalState.processedSize
            / (runChunks st chunks).finalState.totalSize := by
  induction chunks with
  | nil => exact fun st h => h
  | cons c cs ih =>
    intro st h
    rw [runChunks_finalState_cons]
    apply ih
    rw [transformChunk_last, transformChunk_processedSize, transformChunk_totalSize]
    split
    · exact Nat.le_refl _
    · exact h.trans
        (Nat.div_le_div_right (Nat.mul_le_mul_left 100 (Nat.le_add_right _ _)))

/-! ### Claims -/

/-- Claim C1, counterexample: when the size probe fails (`statSize = none`)
the script does log the error, read no chunk and write no data — but the
output file HAS been created, because `fs.createWriteStream(outputFile)`
runs at module load, before `fs.stat`.  This refutes "the output file is
neither created nor modified". -/
theorem c1_counterexample :
    (runScript none []).statErrorLogged = true ∧
    (runScript none []).chunksRead = 0 ∧
    (runScript none []).written = [] ∧
    (runScript none []).outputFileCreated = true :=
  ⟨rfl, rfl, rfl, rfl⟩

/-- Claim C1, amended: if the size probe fails, the pipeline fails
immediately (the probe error is reported), no chunk is read, no data is
written to the output and no finish is signalled — however the output file
is created (truncated to empty), since the writable stream is opened before
the probe. -/
theorem c1_probe_failure (chunks : List (List Char)) :
    (runScript none chunks).statErrorLogged = true ∧
    (runScript none chunks).chunksRead = 0 ∧
    (runScript none chunks).written = [] ∧
    (runScript none chunks).finishCalls = 0 ∧
    (runScript none chunks).reports = [] ∧
    (runScript none chunks).outputFileCreated = true :=
  ⟨rfl, rfl, rfl, rfl, rfl, rfl⟩

/-- Claim C2, counterexample: the input text `"é"` occupies 2 bytes on disk
(so the size probe reports 2), but the stream is decoded as UTF-8, so the
chunk is the 1-character string `"é"` and `processedSize` ends at its
`.length`, namely 1 ≠ 2.  `processedSize` equals the byte size only for
single-byte (ASCII) input. -/
theorem c2_counterexample :
    concatChunks [['é']] = ['é'] ∧
    strUtf8Size ['é'] = 2 ∧
    (runScript (some (strUtf8Size ['é'])) [['é']]).finishCalls = 1 ∧
    (runScript (some (strUtf8Size ['é'])) [['é']]).errorCalls = 0 ∧
    (runScript (some (strUtf8Size ['é'])) [['é']]).finalState.processedSize = 1 ∧
    (runScript (some (strUtf8Size ['é'])) [['é']]).finalState.processedSize
      ≠ strUtf8Size ['é'] := by
  decide

/-- Claim C2, amended: for every input processed to normal completion the
final `processedSize` equals the decoded length (UTF-16 code units) of the
whole input; it equals the byte size reported by the size probe whenever
every character of the input is a single-byte (ASCII) character. -/
theorem c2_processed_size (text : List Char) (chunks : List (List Char))
    (hchunks : concatChunks chunks = text) :
    (runScript (some (strUtf8Size text)) chunks).finalState.processedSize
        = strJsLen text ∧
    ((∀ c ∈ text, c.toNat < 128) →
      (runScript (some (strUtf8Size text)) chunks).finalState.processedSize
        = strUtf8Size text) := by
  have h1 : (runScript (some (strUtf8Size text)) chunks).finalState.processedSize
      = strJsLen text := by
    show (runChunks (initState (strUtf8Size text)) chunks).finalState.processedSize
        = strJsLen text
    rw [runChunks_processedSize, hchunks]
    exact Nat.zero_add _
  exact ⟨h1, fun hascii => h1.trans (strJsLen_eq_strUtf8Size_of_ascii text hascii)⟩

/-- Witness for claim C2's amended theorem at the concrete input `"hi\n"`
delivered as one chunk. -/
theorem c2_processed_size_witness :
    concatChunks [['h', 'i', '\n']] = ['h', 'i', '\n'] ∧
    (runScript (some (strUtf8Size ['h', 'i', '\n'])) [['h', 'i', '\n']]).finalState.processedSize
        = strJsLen ['h', 'i', '\n'] :=
  ⟨rfl, (c2_processed_size ['h', 'i', '\n'] [['h', 'i', '\n']] rfl).1⟩

/-- Claim C3, counterexample: an 8-byte ASCII input delivered in eight
1-character chunks produces the reported percentages
`[12, 25, 37, 50, 62, 75, 87, 100]`; the non-final value 12 (and most of the
others) is not a multiple of 10, because the code logs `Math.floor(progress)`
rather than the decile boundary. -/
theorem c3_counterexample :
    concatChunks (List.replicate 8 ['a']) = List.replicate 8 'a' ∧
    strUtf8Size (List.replicate 8 'a') = 8 ∧
    ((runScript (some 8) (List.replicate 8 ['a'])).reports.map Prod.fst
        = [12, 25, 37, 50, 62, 75, 87, 100]) ∧
    12 % 10 ≠ 0 := by
  decide

/-- Claim C3, amended: for every nonempty input and every chunking of it,
the reported percentages are strictly increasing with consecutive gaps of at
least 10 (hence non-decreasing and never repeated), and every reported value
lies between 10 and 100; the values are floors of the exact progress and
need not be multiples of 10. -/
theorem c3_report_monotonicity (text : List Char) (chunks : List (List Char))
    (hne : text ≠ []) (hchunks : concatChunks chunks = text) :
    ((runScript (some (strUtf8Size text)) chunks).reports.map Prod.fst).Pairwise
        (fun a b => a + 10 ≤ b) ∧
    ∀ p ∈ (runScript (some (strUtf8Size text)) chunks).reports.map Prod.fst,
        10 ≤ p ∧ p ≤ 100 := by
  have ht : 0 < (initState (strUtf8Size text)).totalSize := strUtf8Size_pos text hne
  have hrep : (runScript (some (strUtf8Size text)) chunks).reports
      = (runChunks (initState (strUtf8Size text)) chunks).reports := rfl
  have hchain := runChunks_reports_chain chunks (initState (strUtf8Size text)) ht
  have h0 : (initState (strUtf8Size text)).lastLoggedProgress = 0 := rfl
  rw [h0] at hchain
  rw [hrep]
  refine ⟨chain_pairwise_ge hchain, fun p hp => ?_⟩
  have hge := chain_forall_ge hchain p hp
  rcases List.mem_map.mp hp with ⟨q, hq, hpq⟩
  exact ⟨by omega, hpq ▸ runChunks_reports_le chunks (initState (strUtf8Size text))
    (by
      have hle1 := strJsLen_le_strUtf8Size text
      have h2 : (initState (strUtf8Size text)).processedSize = 0 := rfl
      have h3 : (initState (strUtf8Size text)).totalSize = strUtf8Size text := rfl
      rw [hchunks]
      omega) q hq⟩

/-- Witness for claim C3's amended theorem at the 8-byte eight-chunk input. -/
theorem c3_report_monotonicity_witness :
    List.replicate 8 'a' ≠ [] ∧
    (((runScript (some (strUtf8Size (List.replicate 8 'a')))
          (List.replicate 8 ['a'])).reports.map Prod.fst).Pairwise
        (fun a b => a + 10 ≤ b) ∧
      ∀ p ∈ (runScript (some (strUtf8Size (List.replicate 8 'a')))
          (List.replicate 8 ['a'])).reports.map Prod.fst,
          10 ≤ p ∧ p ≤ 100) :=
  ⟨by decide,
   c3_report_monotonicity (List.replicate 8 'a') (List.replicate 8 ['a'])
     (by decide) (by decide)⟩

/-- Claim C4 (confirmed): for every probed size and every chunking, the data
written to the output equals the uppercase mapping of the concatenation of
the input chunks — the output is independent of where the chunk boundaries
fall, because the per-chunk transform is the per-character map applied to
each chunk and concatenation commutes with it. -/
theorem c4_chunk_independence (size : Nat) (chunks : List (List Char)) :
    (runScript (some size) chunks).written = jsToUpper (concatChunks chunks) := by
  show (runChunks (initState size) chunks).output = jsToUpper (concatChunks chunks)
  exact runChunks_output chunks (initState size)

/-- Claim C5, counterexample: a 10-byte ASCII input delivered in two 5-byte
chunks.  The first chunk advances progress from 0% to 50%, crossing the
thresholds 10,20,30,40,50 at once, and the logged value is
`Math.floor(progress) = 50`, not the first crossed threshold
`lastLoggedProgress + 10 = 10`. -/
theorem c5_counterexample :
    concatChunks [List.replicate 5 'a', List.replicate 5 'a']
        = List.replicate 10 'a' ∧
    strUtf8Size (List.replicate 10 'a') = 10 ∧
    ((runScript (some 10) [List.replicate 5 'a', List.replicate 5 'a']).reports.map
        Prod.fst = [50, 100]) ∧
    (50 : Nat) ≠ 0 + 10 := by
  decide

/-- Claim C5, amended: at most one progress report is emitted per chunk, and
when a report is emitted its value is `⌊100·processedSize/totalSize⌋` — the
floor of the progress reached after the whole chunk, which is at least
`lastReportedProgressPercent + 10` percent of the total but is NOT clamped
to that first crossed threshold. -/
theorem c5_report_per_chunk (st : RunState) (chunk : List Char)
    (pct lines : Nat)
    (h : (transformChunk st chunk).report = some (pct, lines)) :
    (transformChunk st chunk).report.toList.length ≤ 1 ∧
    pct = 100 * (st.processedSize + strJsLen chunk) / st.totalSize ∧
    (st.lastLoggedProgress + 10) * st.totalSize
      ≤ 100 * (st.processedSize + strJsLen chunk) := by
  by_cases hfire : (st.lastLoggedProgress + 10) * st.totalSize
      ≤ 100 * (st.processedSize + strJsLen chunk)
  · rw [transformChunk_report, if_pos hfire] at h
    have hpair := Option.some.inj h
    refine ⟨?_, (congrArg Prod.fst hpair).symm, hfire⟩
    rw [transformChunk_report, if_pos hfire]
    exact Nat.le_refl 1
  · rw [transformChunk_report, if_neg hfire] at h
    exact Option.noConfusion h

/-- Witness for claim C5's amended theorem: the first 5-character chunk of a
10-byte input yields the single report `(50, 0)`. -/
theorem c5_report_per_chunk_witness :
    (transformChunk (initState 10) (List.replicate 5 'a')).report = some (50, 0) ∧
    ((transformChunk (initState 10) (List.replicate 5 'a')).report.toList.length ≤ 1 ∧
     50 = 100 * ((initState 10).processedSize + strJsLen (List.replicate 5 'a'))
            / (initState 10).totalSize ∧
     ((initState 10).lastLoggedProgress + 10) * (initState 10).totalSize
       ≤ 100 * ((initState 10).processedSize + strJsLen (List.replicate 5 'a'))) :=
  ⟨by decide,
   c5_report_per_chunk (initState 10) (List.replicate 5 'a') 50 0 (by decide)⟩

/-- Claim C6, counterexample: the chunk `"é"` occupies 2 bytes in the input
file, but the transform increments `processedSize` by `chunk.length = 1`
(the decoded length), not by the chunk's byte length. -/
theorem c6_counterexample :
    utf8Bytes 'é' = 2 ∧
    strJsLen ['é'] = 1 ∧
    (transformChunk (initState 2) ['é']).state.processedSize
        = (initState 2).processedSize + 1 ∧
    (transformChunk (initState 2) ['é']).state.processedSize
        ≠ (initState 2).processedSize + utf8Bytes 'é' := by
  decide

/-- Claim C6, amended: each transform invocation increments `processedSize`
by the chunk's decoded length (`chunk.length`, UTF-16 code units — equal to
the byte length only for single-byte characters) and `processedLines` by the
number of `'\n'` characters inside the chunk; the counts are per-chunk with
no carry-over, so over a run they sum to the counts of the concatenation. -/
theorem c6_counter_increments (st : RunState) (chunk : List Char)
    (chunks : List (List Char)) :
    (transformChunk st chunk).state.processedSize
        = st.processedSize + strJsLen chunk ∧
    (transformChunk st chunk).state.processedLines
        = st.processedLines + countNewlines chunk ∧
    (runChunks st chunks).finalState.processedSize
        = st.processedSize + strJsLen (concatChunks chunks) ∧
    (runChunks st chunks).finalState.processedLines
        = st.processedLines + countNewlines (concatChunks chunks) :=
  ⟨rfl, rfl, runChunks_processedSize chunks st, runChunks_processedLines chunks st⟩

/-- Claim C7 (confirmed): at every point of a run on a real input (after any
prefix of the chunking of the text whose byte size the probe reported),
`processedSize` never exceeds `totalSize` — each character contributes at
least as many bytes to the file as code units to the decoded stream — and
`lastLoggedProgress` is at most `⌊100·processedSize/totalSize⌋`, since every
update stores exactly the current floor and the floor is non-decreasing. -/
theorem c7_state_invariant (text : List Char) (pre suf : List (List Char))
    (hchunks : concatChunks (pre ++ suf) = text) :
    (runChunks (initState (strUtf8Size text)) pre).finalState.processedSize
        ≤ strUtf8Size text ∧
    (runChunks (initState (strUtf8Size text)) pre).finalState.totalSize
        = strUtf8Size text ∧
    (runChunks (initState (strUtf8Size text)) pre).finalState.lastLoggedProgress
        ≤ 100 * (runChunks (initState (strUtf8Size text)) pre).finalState.processedSize
            / (runChunks (initState (strUtf8Size text)) pre).finalState.totalSize := by
  refine ⟨?_, runChunks_totalSize pre (initState (strUtf8Size text)), ?_⟩
  · rw [runChunks_processedSize]
    have hle1 := strJsLen_le_strUtf8Size (concatChunks pre)
    have heq : strUtf8Size (concatChunks pre) + strUtf8Size (concatChunks suf)
        = strUtf8Size text := by
      rw [← strUtf8Size_append, ← concatChunks_append, hchunks]
    have h0 : (initState (strUtf8Size text)).processedSize = 0 := rfl
    omega
  · exact runChunks_last_le_floor pre (initState (strUtf8Size text)) (Nat.zero_le _)

/-- Witness for claim C7 at the input `"abcd"` split into the processed
prefix `["ab"]` and the pending suffix `["cd"]`. -/
theorem c7_state_invariant_witness :
    concatChunks ([['a', 'b']] ++ [['c', 'd']]) = ['a', 'b', 'c', 'd'] ∧
    ((runChunks (initState (strUtf8Size ['a', 'b', 'c', 'd'])) [['a', 'b']]).finalState.processedSize
        ≤ strUtf8Size ['a', 'b', 'c', 'd'] ∧
     (runChunks (initState (strUtf8Size ['a', 'b', 'c', 'd'])) [['a', 'b']]).finalState.totalSize
        = strUtf8Size ['a', 'b', 'c', 'd'] ∧
     (runChunks (initState (strUtf8Size ['a', 'b', 'c', 'd'])) [['a', 'b']]).finalState.lastLoggedProgress
        ≤ 100 * (runChunks (initState (strUtf8Size ['a', 'b', 'c', 'd'])) [['a', 'b']]).finalState.processedSize
            / (runChunks (initState (strUtf8Size ['a', 'b', 'c', 'd'])) [['a', 'b']]).finalState.totalSize) :=
  ⟨rfl, c7_state_invariant ['a', 'b', 'c', 'd'] [['a', 'b']] [['c', 'd']] rfl⟩

/-- Claim C8 (confirmed): the example scenario — input `"hello\nworld\n"`
(12 bytes, 2 lines) delivered as the chunks `"hello\n"` then `"world\n"`
yields output `"HELLO\nWORLD\n"`, final `processedLines = 2`, a summary
reporting 2 lines, at least one finish call and no error call. -/
theorem c8_example_scenario :
    strUtf8Size ("hello\nworld\n".toList) = 12 ∧
    (runScript (some 12) ["hello\n".toList, "world\n".toList]).written
        = "HELLO\nWORLD\n".toList ∧
    (runScript (some 12) ["hello\n".toList, "world\n".toList]).finalState.processedLines
        = 2 ∧
    (runScript (some 12) ["hello\n".toList, "world\n".toList]).summaryLines
        = some 2 ∧
    1 ≤ (runScript (some 12) ["hello\n".toList, "world\n".toList]).finishCalls ∧
    (runScript (some 12) ["hello\n".toList, "world\n".toList]).errorCalls = 0 := by
  decide

/-- Claim C9 (confirmed): the final `processedLines` is the number of `'\n'`
characters in the whole input, for every chunking (the per-chunk counts sum
to the count of the concatenation); a `'\r'` contributes nothing on its own,
so `"\r\n"` counts as exactly one line terminator. -/
theorem c9_newline_counting (st : RunState) (chunks : List (List Char))
    (s : List Char) :
    (runChunks st chunks).finalState.processedLines
        = st.processedLines + countNewlines (concatChunks chunks) ∧
    countNewlines ('\r' :: s) = countNewlines s ∧
    countNewlines ('\r' :: '\n' :: s) = countNewlines s + 1 := by
  refine ⟨runChunks_processedLines chunks st, ?_, ?_⟩
  · show (if '\r' = '\n' then 1 else 0) + countNewlines s = countNewlines s
    rw [if_neg (by decide)]
    exact Nat.zero_add _
  · show (if '\r' = '\n' then 1 else 0)
        + ((if '\n' = '\n' then 1 else 0) + countNewlines s) = countNewlines s + 1
    rw [if_neg (by decide), if_pos rfl]
    omega

/-- Claim C10 (confirmed): starting from `lastLoggedProgress = 0`, a report
fires only when progress has reached `lastLoggedProgress + 10` percent, so a
value of 0 is never reported, the first reported value is at least 10, and
each subsequent reported value exceeds the previous one by at least 10. -/
theorem c10_first_threshold (total : Nat) (chunks : List (List Char))
    (ht : 0 < total) :
    List.Chain (fun a b => a + 10 ≤ b) 0
        ((runScript (some total) chunks).reports.map Prod.fst) ∧
    ∀ p ∈ (runScript (some total) chunks).reports.map Prod.fst,
        10 ≤ p ∧ p ≠ 0 := by
  have hrep : (runScript (some total) chunks).reports
      = (runChunks (initState total) chunks).reports := rfl
  have hchain := runChunks_reports_chain chunks (initState total) ht
  have h0 : (initState total).lastLoggedProgress = 0 := rfl
  rw [h0] at hchain
  rw [hrep]
  refine ⟨hchain, fun p hp => ?_⟩
  have hge := chain_forall_ge hchain p hp
  omega

/-- Witness for claim C10 at the 8-byte eight-chunk input. -/
theorem c10_first_threshold_witness :
    (0 : Nat) < 8 ∧
    (List.Chain (fun a b => a + 10 ≤ b) 0
        ((runScript (some 8) (List.replicate 8 ['a'])).reports.map Prod.fst) ∧
     ∀ p ∈ (runScript (some 8) (List.replicate 8 ['a'])).reports.map Prod.fst,
        10 ≤ p ∧ p ≠ 0) :=
  ⟨by decide, c10_first_threshold 8 (List.replicate 8 ['a']) (by decide)⟩

end StreamLearning
